import Mathlib

/-!
Verification of the analysis helpers in
`src/analysis/plotting_nb/plotting_helpers.py` (candidDAC repository).

The numeric computations of the Python module are embedded over `ℚ`.
External collaborators (numpy, pandas, dacbench environments) are modelled
abstractly: `np.exp` becomes an explicit function parameter `rexp`, an
environment becomes a record of the fields the helpers actually read
(`n_steps`, `slopes`, `shifts`, `n_actions`, the sigmoid evaluator `_sig`
and the piecewise target `_get_target`), and a pandas data frame becomes a
list of rows.  Python code that can raise (division by zero in the grid
generators) is embedded with `Option`.
-/

namespace CandidDAC

/-- Python substring containment `needle in hay`, on character lists.
`hasSubAux hay needle` is true iff `needle` occurs contiguously in `hay`. -/
def hasSubAux (hay needle : List Char) : Bool :=
  needle.isPrefixOf hay ||
    match hay with
    | [] => false
    | _ :: t => hasSubAux t needle

/-- Python substring containment on strings: `needle in hay`. -/
def hasSub (hay needle : String) : Bool :=
  hasSubAux hay.data needle.data

/-- Embedding of `np.searchsorted(array, value)` (default `side='left'`) on a sorted
array: the number of elements strictly below `value`, i.e. the leftmost
insertion index keeping the array sorted. -/
def searchsorted (a : List ℚ) (v : ℚ) : ℕ :=
  a.countP (fun x => decide (x < v))

/-- Embedding of `find_nearest(array, value)` from `plotting_helpers.py`: binary search
for the insertion index, then compare the two straddling candidates.
Out-of-range indexing of the empty list is replaced by a default `0`
(the Python code would raise; all uses are on non-empty grids). -/
def find_nearest (a : List ℚ) (v : ℚ) : ℚ :=
  let idx := searchsorted a v
  if idx = 0 then a.headD 0
  else if idx = a.length then a.getLastD 0
  else
    let lo := a.getD (idx - 1) 0
    let hi := a.getD idx 0
    let dist_low := v - lo
    let dist_high := hi - v
    if dist_low < dist_high then lo else hi

/-- Embedding of `translate_run_name(run_name)` from `plotting_helpers.py`. -/
def translate_run_name (run_name : String) : String :=
  if hasSub run_name "adqn" || hasSub run_name "ddqn" then "DDQN"
  else if hasSub run_name "fdqn_a" || hasSub run_name "saql" then "SAQL"
  else if hasSub run_name "fdqn" || hasSub run_name "iql" then "IQL"
  else if hasSub run_name "sdqn" then "simSDQN"
  else run_name

/-- The fields of a dacbench environment instance that
`compute_optimal_episode_reward` reads.  `sig` models the external
`env._sig(t, slope, shift)` and `target` models `env._get_target(t)`;
`slopes`/`shifts` model the per-instance arrays, indexed as functions. -/
structure EnvModel where
  n_steps : ℕ
  n_actions : ℕ
  slopes : ℕ → ℚ
  shifts : ℕ → ℚ
  sig : ℕ → ℚ → ℚ → ℚ
  target : ℕ → ℚ

/-- The `isinstance` dispatch of `compute_optimal_episode_reward`:
`DiffImportanceFineTuneSigmoidEnv`, `PiecewiseLinearEnv`, or any other
(plain multi-action) `SigmoidEnv`. -/
inductive EnvKind where
  | diffImportanceFineTuneSigmoid
  | piecewiseLinear
  | otherSigmoid
deriving DecidableEq

/-- The per-step reward law of the `DiffImportanceFineTuneSigmoidEnv`
(single-target) branch of `compute_optimal_episode_reward`: the source
tests `reward_shape == 'exponential'` only.  `rexp` abstracts `np.exp`;
`reward_shape` is `Option String` (`none` models Python `None`). -/
def stepRewardSingleTarget (rexp : ℚ → ℚ) (reward_shape : Option String)
    (c truth best_pred_acc : ℚ) : ℚ :=
  if reward_shape = some "exponential" then
    rexp (-c * |truth - best_pred_acc|)
  else
    1 - |truth - best_pred_acc|

/-- The per-step reward law of the `PiecewiseLinearEnv` branch of
`compute_optimal_episode_reward`: the source tests
`reward_shape == 'exponential' or reward_shape == 'exp'`. -/
def stepRewardPiecewise (rexp : ℚ → ℚ) (reward_shape : Option String)
    (c truth best_pred_acc : ℚ) : ℚ :=
  if reward_shape = some "exponential" ∨ reward_shape = some "exp" then
    rexp (-c * |truth - best_pred_acc|)
  else
    1 - |truth - best_pred_acc|

/-- Embedding of `compute_optimal_episode_reward(env, possible_actions, reward_shape, c)`
from `plotting_helpers.py`; the inline per-step accumulations of the first
two branches are the named step laws above. -/
def compute_optimal_episode_reward (rexp : ℚ → ℚ) (kind : EnvKind)
    (env : EnvModel) (possible_actions : List ℚ)
    (reward_shape : Option String) (c : ℚ) : ℚ :=
  match kind with
  | .diffImportanceFineTuneSigmoid =>
    let shift := env.shifts 0
    let slope := env.slopes 0
    ((List.range env.n_steps).map (fun t =>
      let truth := env.sig t slope shift
      let best_pred_acc := find_nearest possible_actions truth
      stepRewardSingleTarget rexp reward_shape c truth best_pred_acc)).sum
  | .piecewiseLinear =>
    ((List.range env.n_steps).map (fun t =>
      let truth := env.target t
      let best_pred_acc := find_nearest possible_actions truth
      stepRewardPiecewise rexp reward_shape c truth best_pred_acc)).sum
  | .otherSigmoid =>
    ((List.range env.n_steps).map (fun t =>
      ((List.range env.n_actions).map (fun i =>
        let truth := env.sig t (env.slopes i) (env.shifts i)
        let best_pred_acc := find_nearest possible_actions truth
        1 - |truth - best_pred_acc|)).prod)).sum

/-- Checked rational division: Python raises `ZeroDivisionError` on a zero
divisor, embedded as `none`. -/
def qdiv? (a b : ℚ) : Option ℚ :=
  if b = 0 then none else some (a / b)

/-- Evaluate `f` on every element, propagating failure: the embedding of a
Python list comprehension whose body may raise. -/
def mapOpt (f : α → Option β) : List α → Option (List β)
  | [] => some []
  | a :: t =>
    match f a, mapOpt f t with
    | some b, some bs => some (b :: bs)
    | _, _ => none

/-- Dimension-0 candidate list of `get_actions_importance_sigmoid`:
`[1 / (n_acts - 1) * i for i in range(n_acts)]`. -/
def gais_dim0 (n_acts : ℕ) : Option (List ℚ) :=
  mapOpt (fun i => (qdiv? 1 ((n_acts : ℚ) - 1)).map (fun d => d * i))
    (List.range n_acts)

/-- Dimension-`i` (`i ≥ 1`) candidate list of
`get_actions_importance_sigmoid`:
`[importance_base**i * (j / (n_acts - 1) - 0.5) for j in range(n_acts)]`. -/
def gais_dim (importance_base : ℚ) (n_acts i : ℕ) : Option (List ℚ) :=
  mapOpt (fun j => (qdiv? (j : ℚ) ((n_acts : ℚ) - 1)).map
      (fun d => importance_base ^ i * (d - 1/2)))
    (List.range n_acts)

/-- All sums over the Cartesian product of the per-dimension candidate
lists: `itertools.product` with the first dimension slowest, each
combination collapsed to the sum of its entries. -/
def cart_sums : List (List ℚ) → List ℚ
  | [] => [0]
  | v :: rest => (v.map (fun x => (cart_sums rest).map (fun s => x + s))).flatten

/-- Model of `np.sort` (ascending); numpy is external, any ascending sort models it. -/
def np_sort (l : List ℚ) : List ℚ :=
  l.insertionSort (· ≤ ·)

/-- Model of `np.unique`: sorted array of the distinct values. -/
def np_unique (l : List ℚ) : List ℚ :=
  (np_sort l).dedup

/-- Embedding of `get_actions_importance_sigmoid(max_dim, importance_base, n_acts)` from
`plotting_helpers.py`: per-dimension candidate lists, Cartesian-product
sums, `np.unique`, `np.sort`. -/
def get_actions_importance_sigmoid (max_dim : ℕ) (importance_base : ℚ)
    (n_acts : ℕ) : Option (List ℚ) :=
  (gais_dim0 n_acts).bind (fun dim0 =>
    (mapOpt (gais_dim importance_base n_acts)
        (List.range' 1 (max_dim - 1))).bind (fun rest =>
      some (np_sort (np_unique (cart_sums (dim0 :: rest))))))

/-- The uniformly spaced grid of `get_best_possible_avg_reward`'s
non-importance branch:
`np.array([1 / (n_acts - 1) * i for i in range(n_acts)])`. -/
def uniform_actions (n_acts : ℕ) : Option (List ℚ) :=
  mapOpt (fun i => (qdiv? 1 ((n_acts : ℚ) - 1)).map (fun d => d * i))
    (List.range n_acts)

/-- Model of `np.mean` of a list of rationals. -/
def np_mean (l : List ℚ) : ℚ :=
  l.sum / l.length

/-- Embedding of `get_best_possible_avg_reward(...)` from `plotting_helpers.py`.
The dacbench benchmark construction is external; it is modelled by the
list `instances` of per-instance environment parameter records that the
reset loop enumerates.  The source-level branching is kept: the action
grid is the combinatorial importance grid for the `candid_sigmoid` and
`piecewise_linear` benchmarks and the uniform grid otherwise, and the
benchmark selector fixes which environment class (hence which branch of
`compute_optimal_episode_reward`) is in play. -/
def get_best_possible_avg_reward (rexp : ℚ → ℚ) (benchmark : String)
    (instances : List EnvModel) (reward_shape : Option String) (c : ℚ)
    (importance_base : ℚ) (n_acts : ℕ) (max_dim : ℕ) : Option ℚ :=
  let acts? :=
    if benchmark = "candid_sigmoid" ∨ benchmark = "piecewise_linear" then
      get_actions_importance_sigmoid max_dim importance_base n_acts
    else
      uniform_actions n_acts
  acts?.map (fun possible_actions_acc =>
    let kind :=
      if benchmark = "candid_sigmoid" then
        EnvKind.diffImportanceFineTuneSigmoid
      else if benchmark = "piecewise_linear" then EnvKind.piecewiseLinear
      else EnvKind.otherSigmoid
    np_mean (instances.map (fun env =>
      compute_optimal_episode_reward rexp kind env possible_actions_acc
        reward_shape c)))

/-- One row of the experiment configuration table, with the fields that
`get_run_configs` filters on. -/
structure ConfigRow where
  config_id : String
  dim : ℤ
  benchmark : String
  reverse_agents : Bool
  n_act : ℤ
  importance_base : ℚ
  reward_shape : String
  exp_reward : ℚ
deriving DecidableEq

/-- Embedding of `get_run_configs(df_config, dim, benchmark, config_id, ...)` from
`plotting_helpers.py`: staged pandas boolean filtering embedded as staged
`List.filter`. -/
def get_run_configs (df_config : List ConfigRow) (dim : ℤ)
    (benchmark : String) (config_id : String) (reverse_agents : Bool)
    (importance_base : ℚ) (reward_shape : String) (exp_reward : ℚ)
    (n_act : ℤ) : List ConfigRow :=
  let df1 :=
    if config_id = "best" then
      df_config.filter (fun r => hasSub r.config_id "best")
    else
      df_config.filter (fun r => r.config_id = config_id)
  let df2 := df1.filter (fun r =>
    r.dim = dim ∧ r.benchmark = benchmark ∧
      r.reverse_agents = reverse_agents ∧ r.n_act = n_act)
  if benchmark = "candid_sigmoid" ∨ benchmark = "piecewise_linear" then
    let df3 := df2.filter (fun r =>
      r.importance_base = importance_base ∧ r.reward_shape = reward_shape)
    if reward_shape = "exp" then
      df3.filter (fun r => r.exp_reward = exp_reward)
    else df3
  else df2

/-! ### Theory of `searchsorted` and `find_nearest` -/

lemma searchsorted_le_length (a : List ℚ) (v : ℚ) :
    searchsorted a v ≤ a.length :=
  List.countP_le_length _

/-- On a strictly sorted list, an element is below `v` exactly when its
index is below the insertion index. -/
lemma get_lt_iff_lt_searchsorted (v : ℚ) :
    ∀ (a : List ℚ), a.Sorted (· < ·) → ∀ (i : ℕ) (h : i < a.length),
      (a.get ⟨i, h⟩ < v ↔ i < searchsorted a v) := by
  intro a
  induction a with
  | nil => intro _ i h; simp at h
  | cons x t ih =>
    intro hs i h
    obtain ⟨hx, ht⟩ := List.sorted_cons.mp hs
    have hcons : searchsorted (x :: t) v =
        searchsorted t v + if x < v then 1 else 0 := by
      simp [searchsorted, List.countP_cons]
    by_cases hxv : x < v
    · cases i with
      | zero =>
        simp only [List.get, hcons, if_pos hxv]
        exact ⟨fun _ => by omega, fun _ => hxv⟩
      | succ n =>
        simp only [List.get, hcons, if_pos hxv]
        rw [ih ht n (by simpa using h)]
        omega
    · have htz : searchsorted t v = 0 := by
        rw [searchsorted, List.countP_eq_zero]
        intro y hy
        simp only [decide_eq_true_eq]
        exact fun hyv => hxv (lt_trans (hx y hy) hyv)
      cases i with
      | zero =>
        simp only [List.get, hcons, htz, if_neg hxv]
        exact ⟨fun hlt => absurd hlt hxv, fun hlt => by omega⟩
      | succ n =>
        simp only [List.get, hcons, htz, if_neg hxv]
        constructor
        · intro hlt
          exact absurd (lt_trans (hx _ (t.get_mem n (by simpa using h))) hlt) hxv
        · omega

lemma lt_of_lt_searchsorted {a : List ℚ} (ha : a.Sorted (· < ·)) {v : ℚ}
    {i : ℕ} (h : i < a.length) (hi : i < searchsorted a v) :
    a.get ⟨i, h⟩ < v :=
  (get_lt_iff_lt_searchsorted v a ha i h).mpr hi

lemma le_of_searchsorted_le {a : List ℚ} (ha : a.Sorted (· < ·)) {v : ℚ}
    {i : ℕ} (h : i < a.length) (hi : searchsorted a v ≤ i) :
    v ≤ a.get ⟨i, h⟩ := by
  by_contra hlt
  push_neg at hlt
  exact absurd ((get_lt_iff_lt_searchsorted v a ha i h).mp hlt) (by omega)

/-- Strictly sorted lists have monotone indexing. -/
lemma sorted_get_le {a : List ℚ} (ha : a.Sorted (· < ·))
    {i j : ℕ} (hi : i < a.length) (hj : j < a.length) (hij : i ≤ j) :
    a.get ⟨i, hi⟩ ≤ a.get ⟨j, hj⟩ := by
  rcases Nat.lt_or_ge i j with hlt | hge
  · exact le_of_lt (List.pairwise_iff_get.mp ha ⟨i, hi⟩ ⟨j, hj⟩ hlt)
  · have : i = j := by omega
    subst this
    exact le_refl _

lemma headD_eq_get {a : List ℚ} (hne : a ≠ []) (d : ℚ) :
    a.headD d = a.get ⟨0, List.length_pos.mpr hne⟩ := by
  cases a with
  | nil => exact absurd rfl hne
  | cons x t => rfl

lemma getLastD_eq_get {a : List ℚ} (hne : a ≠ []) (d : ℚ) :
    a.getLastD d =
      a.get ⟨a.length - 1, by
        have := List.length_pos.mpr hne; omega⟩ := by
  cases a with
  | nil => exact absurd rfl hne
  | cons x t =>
    rw [List.getLastD_eq_getLast?, List.getLast?_eq_getLast _ hne,
      Option.getD_some, List.getLast_eq_getElem]
    simp [List.get_eq_getElem]

/-- Evaluation of `find_nearest` when the insertion index is `0`. -/
lemma find_nearest_eq_head {a : List ℚ} (hne : a ≠ []) {v : ℚ}
    (h0 : searchsorted a v = 0) :
    find_nearest a v = a.get ⟨0, List.length_pos.mpr hne⟩ := by
  rw [find_nearest]
  simp only [h0, if_pos rfl]
  exact headD_eq_get hne 0

/-- Evaluation of `find_nearest` when the insertion index is the length. -/
lemma find_nearest_eq_last {a : List ℚ} (hne : a ≠ []) {v : ℚ}
    (hn : searchsorted a v = a.length) :
    find_nearest a v =
      a.get ⟨a.length - 1, by have := List.length_pos.mpr hne; omega⟩ := by
  have hpos : 0 < a.length := List.length_pos.mpr hne
  rw [find_nearest]
  rw [if_neg (show ¬ searchsorted a v = 0 by omega), if_pos hn]
  exact getLastD_eq_get hne 0

/-- Evaluation of `find_nearest` at an interior insertion index. -/
lemma find_nearest_eq_mid {a : List ℚ} {v : ℚ}
    (h0 : searchsorted a v ≠ 0) (hn : searchsorted a v < a.length) :
    find_nearest a v =
      (let lo := a.get ⟨searchsorted a v - 1, by omega⟩
       let hi := a.get ⟨searchsorted a v, hn⟩
       if v - lo < hi - v then lo else hi) := by
  rw [find_nearest]
  simp only [if_neg h0, if_neg (by omega : ¬ searchsorted a v = a.length)]
  rw [List.getD_eq_getElem a 0 (show searchsorted a v - 1 < a.length by omega),
    List.getD_eq_getElem a 0 hn]
  rfl

/-- On a sorted non-empty list, `find_nearest` returns an element of the
list at minimal absolute distance to the query. -/
lemma find_nearest_spec (a : List ℚ) (ha : a.Sorted (· < ·)) (hne : a ≠ [])
    (v : ℚ) :
    find_nearest a v ∈ a ∧ ∀ x ∈ a, |v - find_nearest a v| ≤ |v - x| := by
  have hpos : 0 < a.length := List.length_pos.mpr hne
  have hssle := searchsorted_le_length a v
  by_cases h0 : searchsorted a v = 0
  · rw [find_nearest_eq_head hne h0]
    refine ⟨a.get_mem 0 hpos, ?_⟩
    intro x hx
    obtain ⟨⟨j, hj⟩, rfl⟩ := List.mem_iff_get.mp hx
    have hv0 : v ≤ a.get ⟨0, hpos⟩ := le_of_searchsorted_le ha hpos (by omega)
    have hvj : v ≤ a.get ⟨j, hj⟩ := le_of_searchsorted_le ha hj (by omega)
    have hmono : a.get ⟨0, hpos⟩ ≤ a.get ⟨j, hj⟩ :=
      sorted_get_le ha hpos hj (Nat.zero_le j)
    rw [abs_sub_comm v (a.get ⟨0, hpos⟩), abs_sub_comm v (a.get ⟨j, hj⟩),
      abs_of_nonneg (by linarith), abs_of_nonneg (by linarith)]
    linarith
  · by_cases hn : searchsorted a v = a.length
    · rw [find_nearest_eq_last hne hn]
      refine ⟨a.get_mem _ _, ?_⟩
      intro x hx
      obtain ⟨⟨j, hj⟩, rfl⟩ := List.mem_iff_get.mp hx
      have hvlast : a.get ⟨a.length - 1, by omega⟩ < v :=
        lt_of_lt_searchsorted ha (by omega) (by omega)
      have hvj : a.get ⟨j, hj⟩ < v := lt_of_lt_searchsorted ha hj (by omega)
      have hmono : a.get ⟨j, hj⟩ ≤ a.get ⟨a.length - 1, by omega⟩ :=
        sorted_get_le ha hj (by omega) (by omega)
      rw [abs_of_nonneg (by linarith), abs_of_nonneg (by linarith)]
      linarith
    · have hnlt : searchsorted a v < a.length := by omega
      rw [find_nearest_eq_mid h0 hnlt]
      simp only []
      have hlo : a.get ⟨searchsorted a v - 1, by omega⟩ < v :=
        lt_of_lt_searchsorted ha (by omega) (by omega)
      have hhi : v ≤ a.get ⟨searchsorted a v, hnlt⟩ :=
        le_of_searchsorted_le ha hnlt (by omega)
      have key : ∀ x ∈ a,
          min (v - a.get ⟨searchsorted a v - 1, by omega⟩)
            (a.get ⟨searchsorted a v, hnlt⟩ - v) ≤ |v - x| := by
        intro x hx
        obtain ⟨⟨j, hj⟩, rfl⟩ := List.mem_iff_get.mp hx
        rcases Nat.lt_or_ge j (searchsorted a v) with hjlt | hjge
        · have hxlt : a.get ⟨j, hj⟩ < v := lt_of_lt_searchsorted ha hj hjlt
          have hmono : a.get ⟨j, hj⟩ ≤ a.get ⟨searchsorted a v - 1, by omega⟩ :=
            sorted_get_le ha hj (by omega) (by omega)
          rw [abs_of_nonneg (by linarith)]
          have := min_le_left (v - a.get ⟨searchsorted a v - 1, by omega⟩)
            (a.get ⟨searchsorted a v, hnlt⟩ - v)
          linarith
        · have hxge : v ≤ a.get ⟨j, hj⟩ := le_of_searchsorted_le ha hj hjge
          have hmono : a.get ⟨searchsorted a v, hnlt⟩ ≤ a.get ⟨j, hj⟩ :=
            sorted_get_le ha hnlt hj hjge
          rw [abs_sub_comm, abs_of_nonneg (by linarith)]
          have := min_le_right (v - a.get ⟨searchsorted a v - 1, by omega⟩)
            (a.get ⟨searchsorted a v, hnlt⟩ - v)
          linarith
      by_cases hcmp : v - a.get ⟨searchsorted a v - 1, by omega⟩ <
          a.get ⟨searchsorted a v, hnlt⟩ - v
      · rw [if_pos hcmp]
        refine ⟨a.get_mem _ _, ?_⟩
        intro x hx
        have := key x hx
        rw [abs_sub_comm, abs_of_nonpos (by linarith)]
        simp only [min_def] at this
        split at this <;> linarith
      · rw [if_neg hcmp]
        refine ⟨a.get_mem _ _, ?_⟩
        intro x hx
        have := key x hx
        rw [abs_of_nonpos (by linarith)]
        simp only [min_def] at this
        split at this <;> linarith

/-- A query that is itself a grid value is returned unchanged. -/
lemma find_nearest_self {a : List ℚ} (ha : a.Sorted (· < ·)) (hne : a ≠ [])
    {v : ℚ} (hv : v ∈ a) : find_nearest a v = v := by
  have h := (find_nearest_spec a ha hne v).2 v hv
  rw [sub_self, abs_zero] at h
  have := abs_nonneg (v - find_nearest a v)
  have habs : |v - find_nearest a v| = 0 := le_antisymm h this
  have := abs_eq_zero.mp habs
  linarith [sub_eq_zero.mp this]

/-! ### Sorting and grid-generation lemmas -/

lemma sorted_lt_of_sorted_le_nodup {l : List ℚ}
    (h₁ : l.Sorted (· ≤ ·)) (h₂ : l.Nodup) : l.Sorted (· < ·) :=
  (h₁.and h₂).imp (fun h => lt_of_le_of_ne h.1 h.2)

lemma np_sort_sorted_le (l : List ℚ) : (np_sort l).Sorted (· ≤ ·) :=
  List.sorted_insertionSort _ l

lemma np_sort_perm (l : List ℚ) : (np_sort l).Perm l :=
  List.perm_insertionSort _ l

lemma np_unique_nodup (l : List ℚ) : (np_unique l).Nodup :=
  List.nodup_dedup _

/-- The `np.sort(np.unique(...))` tail of the grid generator always
produces a strictly increasing list. -/
lemma np_sort_np_unique_sorted_lt (l : List ℚ) :
    (np_sort (np_unique l)).Sorted (· < ·) := by
  refine sorted_lt_of_sorted_le_nodup (np_sort_sorted_le _) ?_
  exact ((np_sort_perm (np_unique l)).symm).nodup (np_unique_nodup l)

lemma mapOpt_eq_some_map {α β : Type} (f : α → Option β) (g : α → β) :
    ∀ (l : List α), (∀ a ∈ l, f a = some (g a)) →
      mapOpt f l = some (l.map g) := by
  intro l
  induction l with
  | nil => intro _; rfl
  | cons a t ih =>
    intro h
    have ha : f a = some (g a) := h a (by simp)
    have ht := ih (fun x hx => h x (by simp [hx]))
    simp [mapOpt, ha, ht]

lemma qdiv_eq_some {a b : ℚ} (hb : b ≠ 0) : qdiv? a b = some (a / b) :=
  if_neg hb

lemma cast_sub_one_ne_zero {n : ℕ} (hn : 2 ≤ n) : ((n : ℚ) - 1) ≠ 0 := by
  have : (2 : ℚ) ≤ (n : ℚ) := by exact_mod_cast hn
  linarith

/-- Under `n_acts ≥ 2` the dimension-0 candidate list evaluates without a
division by zero. -/
lemma gais_dim0_eq_some {n : ℕ} (hn : 2 ≤ n) :
    gais_dim0 n =
      some ((List.range n).map (fun i => 1 / ((n : ℚ) - 1) * i)) := by
  apply mapOpt_eq_some_map
  intro i _
  rw [qdiv_eq_some (cast_sub_one_ne_zero hn)]
  rfl

/-- Under `n_acts ≥ 2` every higher-dimension candidate list evaluates
without a division by zero. -/
lemma gais_dim_eq_some {n : ℕ} (hn : 2 ≤ n) (b : ℚ) (i : ℕ) :
    gais_dim b n i =
      some ((List.range n).map
        (fun j => b ^ i * ((j : ℚ) / ((n : ℚ) - 1) - 1/2))) := by
  apply mapOpt_eq_some_map
  intro j _
  rw [qdiv_eq_some (cast_sub_one_ne_zero hn)]
  rfl

/-- Interior evaluation of `find_nearest` stated with default-valued
indexing, as in the definition. -/
lemma find_nearest_eq_mid_getD {a : List ℚ} {v : ℚ}
    (h0 : searchsorted a v ≠ 0) (hn : searchsorted a v < a.length) :
    find_nearest a v =
      if v - a.getD (searchsorted a v - 1) 0 <
          a.getD (searchsorted a v) 0 - v then
        a.getD (searchsorted a v - 1) 0
      else a.getD (searchsorted a v) 0 := by
  rw [find_nearest, if_neg h0,
    if_neg (show ¬ searchsorted a v = a.length by omega)]

/-! ### Claim theorems -/

/-- Claim C1 (amended): For every non-empty strictly increasing sequence `a`
and query `v`, `find_nearest` returns an element of `a` such that no other
element of `a` is strictly closer to `v`; when `v` is exactly equidistant
from the two straddling candidates `a[idx-1]` and `a[idx]`
(`idx = searchsorted a v` interior), the returned element is the
higher-indexed (larger) one — not, as the original claim stated, the
lower-indexed one. -/
theorem find_nearest_min_dist_tie_high (a : List ℚ)
    (ha : a.Sorted (· < ·)) (hne : a ≠ []) (v : ℚ) :
    find_nearest a v ∈ a ∧
    (∀ x ∈ a, |v - find_nearest a v| ≤ |v - x|) ∧
    (searchsorted a v ≠ 0 → searchsorted a v < a.length →
      v - a.getD (searchsorted a v - 1) 0 = a.getD (searchsorted a v) 0 - v →
      find_nearest a v = a.getD (searchsorted a v) 0) := by
  refine ⟨(find_nearest_spec a ha hne v).1,
    (find_nearest_spec a ha hne v).2, ?_⟩
  intro h0 hn htie
  rw [find_nearest_eq_mid_getD h0 hn, htie, if_neg (lt_irrefl _)]

/-- Witness for C1 at `a = [0, 1]`, `v = 1/2`. -/
theorem find_nearest_min_dist_tie_high_witness :
    find_nearest [(0 : ℚ), 1] (1/2) ∈ [(0 : ℚ), 1] ∧
    (∀ x ∈ [(0 : ℚ), 1], |1/2 - find_nearest [(0 : ℚ), 1] (1/2)| ≤ |1/2 - x|) ∧
    (searchsorted [(0 : ℚ), 1] (1/2) ≠ 0 →
      searchsorted [(0 : ℚ), 1] (1/2) < ([(0 : ℚ), 1]).length →
      1/2 - ([(0 : ℚ), 1]).getD (searchsorted [(0 : ℚ), 1] (1/2) - 1) 0 =
        ([(0 : ℚ), 1]).getD (searchsorted [(0 : ℚ), 1] (1/2)) 0 - 1/2 →
      find_nearest [(0 : ℚ), 1] (1/2) =
        ([(0 : ℚ), 1]).getD (searchsorted [(0 : ℚ), 1] (1/2)) 0) :=
  find_nearest_min_dist_tie_high [0, 1] (by decide) (by decide) (1/2)

/-- Claim C1 counterexample: `[0, 1]` is strictly increasing and `1/2` is
exactly equidistant from the two straddling candidates `0` and `1`, yet
`find_nearest` returns `1`, the higher-indexed candidate — refuting the
claim that ties resolve to the lower-indexed (smaller) one. -/
theorem find_nearest_tie_low_counterexample :
    List.Sorted (· < ·) [(0 : ℚ), 1] ∧
    |(1 : ℚ)/2 - 0| = |(1 : ℚ)/2 - 1| ∧
    find_nearest [(0 : ℚ), 1] (1/2) = 1 := by
  refine ⟨by decide, by norm_num, ?_⟩
  norm_num [find_nearest, searchsorted, List.countP_cons]

/-- Claim C2 (amended): The per-step reward law of the piecewise-target
variant agrees with the single-target variant's law as a function of
`(truth, best_prediction, reward_shape, c)` for every reward-shape
selector other than `some "exp"`: `1 − |truth − best|` by default and the
exponential law when `"exponential"` is requested.  For the selector
`"exp"` the two branches differ (see the counterexample): the piecewise
branch applies the exponential law while the single-target branch applies
the default linear law. -/
theorem step_reward_laws_agree (rexp : ℚ → ℚ) (reward_shape : Option String)
    (c truth best : ℚ) (hrs : reward_shape ≠ some "exp") :
    stepRewardSingleTarget rexp reward_shape c truth best =
      stepRewardPiecewise rexp reward_shape c truth best := by
  unfold stepRewardSingleTarget stepRewardPiecewise
  by_cases he : reward_shape = some "exponential"
  · rw [if_pos he, if_pos (Or.inl he)]
  · rw [if_neg he, if_neg (by tauto)]

/-- Witness for C2 at the default reward shape (`None`). -/
theorem step_reward_laws_agree_witness :
    stepRewardSingleTarget (fun x => x) none 1 0 1 =
      stepRewardPiecewise (fun x => x) none 1 0 1 :=
  step_reward_laws_agree (fun x => x) none 1 0 1 (by simp)

/-- Claim C2 counterexample: With `reward_shape = some "exp"` the two
branches apply different laws to the same `(truth, best) = (0, 1)` and
`c = 1`: the single-target branch takes the linear law and yields `0`,
the piecewise branch takes the exponential law and yields `rexp (-1)`
(here `rexp` is the stand-in `fun _ => 1/2` for `np.exp`, whose true
value `exp (-1)` is likewise nonzero). -/
theorem step_reward_laws_exp_counterexample :
    stepRewardSingleTarget (fun _ => (1 : ℚ)/2) (some "exp") 1 0 1 = 0 ∧
    stepRewardPiecewise (fun _ => (1 : ℚ)/2) (some "exp") 1 0 1 = 1/2 := by
  constructor
  · rw [stepRewardSingleTarget, if_neg (by decide)]
    norm_num
  · norm_num [stepRewardPiecewise]

/-- Claim C3: Run-name canonicalization maps the four documented examples to
`DDQN`, `SAQL`, `IQL`, `simSDQN`; any input containing none of the
recognized markers is returned unchanged; and whenever neither `adqn` nor
`ddqn` occurs, the presence of a factorized-autorecursive marker
(`fdqn_a` or `saql`) yields `SAQL` regardless of the plain factorized
markers, reflecting the fixed priority order. -/
theorem translate_run_name_canonical :
    translate_run_name "exp_ddqn_seed0" = "DDQN" ∧
    translate_run_name "exp_fdqn_a_seed3" = "SAQL" ∧
    translate_run_name "exp_fdqn_seed1" = "IQL" ∧
    translate_run_name "exp_sdqn_seed2" = "simSDQN" ∧
    (∀ s : String, hasSub s "adqn" = false → hasSub s "ddqn" = false →
      hasSub s "fdqn_a" = false → hasSub s "saql" = false →
      hasSub s "fdqn" = false → hasSub s "iql" = false →
      hasSub s "sdqn" = false → translate_run_name s = s) ∧
    (∀ s : String, hasSub s "adqn" = false → hasSub s "ddqn" = false →
      (hasSub s "fdqn_a" = true ∨ hasSub s "saql" = true) →
      translate_run_name s = "SAQL") := by
  refine ⟨by decide, by decide, by decide, by decide, ?_, ?_⟩
  · intro s h1 h2 h3 h4 h5 h6 h7
    unfold translate_run_name
    rw [if_neg (by simp [h1, h2]), if_neg (by simp [h3, h4]),
      if_neg (by simp [h5, h6]), if_neg (by simp [h7])]
  · intro s h1 h2 h3
    unfold translate_run_name
    rw [if_neg (by simp [h1, h2]),
      if_pos (show (hasSub s "fdqn_a" || hasSub s "saql") = true by
        rcases h3 with h | h <;> simp [h])]

/-- Witness for C3: the identity fallback and the priority rule applied at
concrete inputs. -/
theorem translate_run_name_canonical_witness :
    translate_run_name "hello" = "hello" ∧
    translate_run_name "x_saql_y" = "SAQL" :=
  ⟨translate_run_name_canonical.2.2.2.2.1 "hello" (by decide) (by decide)
      (by decide) (by decide) (by decide) (by decide) (by decide),
    translate_run_name_canonical.2.2.2.2.2 "x_saql_y" (by decide) (by decide)
      (Or.inr (by decide))⟩

/-- Claim C8: Run-name canonicalization is idempotent: translating a
translated name changes nothing (in particular `"DDQN" ↦ "DDQN"`). -/
theorem translate_run_name_idempotent (s : String) :
    translate_run_name (translate_run_name s) = translate_run_name s := by
  by_cases h1 : (hasSub s "adqn" || hasSub s "ddqn") = true
  · have hs : translate_run_name s = "DDQN" := by
      unfold translate_run_name; rw [if_pos h1]
    rw [hs]
    decide
  · by_cases h2 : (hasSub s "fdqn_a" || hasSub s "saql") = true
    · have hs : translate_run_name s = "SAQL" := by
        unfold translate_run_name; rw [if_neg h1, if_pos h2]
      rw [hs]
      decide
    · by_cases h3 : (hasSub s "fdqn" || hasSub s "iql") = true
      · have hs : translate_run_name s = "IQL" := by
          unfold translate_run_name; rw [if_neg h1, if_neg h2, if_pos h3]
        rw [hs]
        decide
      · by_cases h4 : hasSub s "sdqn" = true
        · have hs : translate_run_name s = "simSDQN" := by
            unfold translate_run_name
            rw [if_neg h1, if_neg h2, if_neg h3, if_pos h4]
          rw [hs]
          decide
        · have hs : translate_run_name s = s := by
            unfold translate_run_name
            rw [if_neg h1, if_neg h2, if_neg h3, if_neg h4]
          rw [hs]
          exact hs

/-- Claim C4: Single-target variant, default (non-exponential) shape: when
the truth value at every step is exactly an element of the (sorted,
non-empty) action grid, the optimal episode reward is exactly `n_steps`. -/
theorem optimal_reward_perfect_score (rexp : ℚ → ℚ) (env : EnvModel)
    (A : List ℚ) (hA : A.Sorted (· < ·)) (hne : A ≠ []) (c : ℚ)
    (h : ∀ t < env.n_steps, env.sig t (env.slopes 0) (env.shifts 0) ∈ A) :
    compute_optimal_episode_reward rexp .diffImportanceFineTuneSigmoid env A
      none c = env.n_steps := by
  show ((List.range env.n_steps).map (fun t =>
      stepRewardSingleTarget rexp none c
        (env.sig t (env.slopes 0) (env.shifts 0))
        (find_nearest A (env.sig t (env.slopes 0) (env.shifts 0))))).sum =
    (env.n_steps : ℚ)
  have hmap : ∀ t ∈ List.range env.n_steps,
      stepRewardSingleTarget rexp none c
        (env.sig t (env.slopes 0) (env.shifts 0))
        (find_nearest A (env.sig t (env.slopes 0) (env.shifts 0))) =
      (1 : ℚ) := by
    intro t ht
    rw [find_nearest_self hA hne (h t (List.mem_range.mp ht))]
    rw [stepRewardSingleTarget, if_neg (by simp)]
    simp
  rw [List.map_congr_left hmap]
  simp

/-- Witness for C4: a two-step environment whose truth signal alternates
between the two grid values `0` and `1`. -/
theorem optimal_reward_perfect_score_witness :
    compute_optimal_episode_reward (fun x => x)
      .diffImportanceFineTuneSigmoid
      ⟨2, 1, (fun _ => 0), (fun _ => 0),
        (fun t _ _ => if t = 0 then 0 else 1), (fun _ => 0)⟩
      [0, 1] none 5 = ((2 : ℕ) : ℚ) :=
  optimal_reward_perfect_score (fun x => x) _ [0, 1] (by decide) (by decide)
    5 (by decide)

/-- Claim C9: In the single-target branch the truth signal is read only from
`slopes[0]` and `shifts[0]`: two environments agreeing on `n_steps`, the
sigmoid evaluator and the index-0 slope and shift produce identical
optimal episode rewards for every grid, reward shape and decay constant,
whatever their slopes and shifts at other indices are. -/
theorem single_target_truth_from_index_zero (rexp : ℚ → ℚ)
    (env₁ env₂ : EnvModel) (A : List ℚ) (rs : Option String) (c : ℚ)
    (hn : env₁.n_steps = env₂.n_steps) (hsig : env₁.sig = env₂.sig)
    (hsl : env₁.slopes 0 = env₂.slopes 0)
    (hsh : env₁.shifts 0 = env₂.shifts 0) :
    compute_optimal_episode_reward rexp .diffImportanceFineTuneSigmoid env₁
        A rs c =
      compute_optimal_episode_reward rexp .diffImportanceFineTuneSigmoid env₂
        A rs c := by
  unfold compute_optimal_episode_reward
  rw [hn, hsig, hsl, hsh]

/-- Witness for C9: the two environments agree at index 0 but have
different slopes and shifts at every positive index. -/
theorem single_target_truth_from_index_zero_witness :
    compute_optimal_episode_reward (fun x => x)
        .diffImportanceFineTuneSigmoid
        ⟨1, 1, (fun _ => 0), (fun _ => 0), (fun t s h => s + h + t),
          (fun _ => 0)⟩ [0] none 1 =
      compute_optimal_episode_reward (fun x => x)
        .diffImportanceFineTuneSigmoid
        ⟨1, 1, (fun i => i), (fun i => 2 * i), (fun t s h => s + h + t),
          (fun _ => 0)⟩ [0] none 1 :=
  single_target_truth_from_index_zero _ _ _ _ _ _ rfl rfl (by norm_num)
    (by norm_num)

/-- Claim C6: The best-possible-average-reward computation is invariant
under permutation of the instance enumeration order, for every benchmark
selector, action-grid parameters, reward shape and decay constant. -/
theorem best_avg_reward_perm_invariant (rexp : ℚ → ℚ) (benchmark : String)
    (inst₁ inst₂ : List EnvModel) (rs : Option String) (c ib : ℚ)
    (n_acts max_dim : ℕ) (hperm : inst₁.Perm inst₂) :
    get_best_possible_avg_reward rexp benchmark inst₁ rs c ib n_acts
        max_dim =
      get_best_possible_avg_reward rexp benchmark inst₂ rs c ib n_acts
        max_dim := by
  unfold get_best_possible_avg_reward
  cases hacts : (if benchmark = "candid_sigmoid" ∨
      benchmark = "piecewise_linear" then
        get_actions_importance_sigmoid max_dim ib n_acts
      else uniform_actions n_acts) with
  | none => rfl
  | some A =>
    refine congrArg some ?_
    simp only [np_mean]
    rw [List.length_map, List.length_map, hperm.length_eq,
      (hperm.map _).sum_eq]

/-- Witness for C6: swapping a two-instance enumeration leaves the mean
unchanged. -/
theorem best_avg_reward_perm_invariant_witness :
    get_best_possible_avg_reward (fun x => x) "candid_sigmoid"
        [⟨1, 1, (fun _ => 0), (fun _ => 0), (fun _ _ _ => 0), (fun _ => 0)⟩,
         ⟨2, 1, (fun _ => 1), (fun _ => 1), (fun t s h => s * t + h),
           (fun _ => 0)⟩] none 1 (1/2) 3 2 =
      get_best_possible_avg_reward (fun x => x) "candid_sigmoid"
        [⟨2, 1, (fun _ => 1), (fun _ => 1), (fun t s h => s * t + h),
           (fun _ => 0)⟩,
         ⟨1, 1, (fun _ => 0), (fun _ => 0), (fun _ _ _ => 0),
           (fun _ => 0)⟩] none 1 (1/2) 3 2 :=
  best_avg_reward_perm_invariant _ _ _ _ _ _ _ _ _ (List.Perm.swap _ _ _)

/-- Claim C5: For `max_dim = 2`, `importance_base = 1/2`, `n_acts = 3` the
generator builds dimension-0 candidates `[0, 1/2, 1]` and dimension-1
candidates `[-1/4, 0, 1/4]` and returns the deduplicated ascending sort of
all Cartesian-product sums — the seven-element strictly increasing list
`[-1/4, 0, 1/4, 1/2, 3/4, 1, 5/4]` (at most 9 elements); and in general
every successfully returned grid is strictly increasing. -/
theorem action_grid_generation_correct :
    gais_dim0 3 = some [0, 1/2, 1] ∧
    gais_dim (1/2) 3 1 = some [-(1/4), 0, 1/4] ∧
    get_actions_importance_sigmoid 2 (1/2) 3 =
      some [-(1 : ℚ)/4, 0, 1/4, 1/2, 3/4, 1, 5/4] ∧
    ([(-(1 : ℚ)/4), 0, 1/4, 1/2, 3/4, 1, 5/4]).length ≤ 9 ∧
    List.Sorted (· < ·) [(-(1 : ℚ)/4), 0, 1/4, 1/2, 3/4, 1, 5/4] ∧
    (∀ (max_dim : ℕ) (b : ℚ) (n_acts : ℕ), 1 ≤ max_dim → 2 ≤ n_acts →
      ∀ l, get_actions_importance_sigmoid max_dim b n_acts = some l →
        l.Sorted (· < ·)) := by
  refine ⟨?_, ?_, ?_, by norm_num, ?_, ?_⟩
  · norm_num [gais_dim0, mapOpt, qdiv?, List.range_succ]
  · norm_num [gais_dim, mapOpt, qdiv?, List.range_succ]
  · norm_num [get_actions_importance_sigmoid, gais_dim0, gais_dim, mapOpt,
      qdiv?, List.range_succ, List.range', cart_sums, np_sort, np_unique,
      List.insertionSort, List.orderedInsert, List.dedup, List.pwFilter]
  · norm_num [List.sorted_cons]
  · intro md b n _ _ l hl
    unfold get_actions_importance_sigmoid at hl
    rcases Option.bind_eq_some.mp hl with ⟨d0, _, hl2⟩
    rcases Option.bind_eq_some.mp hl2 with ⟨rest, _, hl3⟩
    rcases Option.some.injEq _ _ ▸ hl3 with rfl
    exact np_sort_np_unique_sorted_lt _

/-- Witness for C5: the generality clause applied at the concrete
`max_dim = 2`, `b = 1/2`, `n_acts = 3` grid. -/
theorem action_grid_generation_correct_witness :
    List.Sorted (· < ·) [(-(1 : ℚ)/4), 0, 1/4, 1/2, 3/4, 1, 5/4] :=
  action_grid_generation_correct.2.2.2.2.2 2 (1/2) 3 (by norm_num)
    (by norm_num) _ action_grid_generation_correct.2.2.1

/-- Claim C7: Filtering with `config_id = 'best'` returns exactly the rows
whose `config_id` contains the substring `"best"` and which match the
remaining applicable selectors; rows without `"best"` never appear, and an
unmatched selector merely yields an empty list (the function is total). -/
theorem get_run_configs_best_filter (df : List ConfigRow) (dim : ℤ)
    (benchmark : String) (ra : Bool) (ib : ℚ) (rs : String) (er : ℚ)
    (na : ℤ) (r : ConfigRow) :
    r ∈ get_run_configs df dim benchmark "best" ra ib rs er na ↔
      r ∈ df ∧ hasSub r.config_id "best" = true ∧ r.dim = dim ∧
        r.benchmark = benchmark ∧ r.reverse_agents = ra ∧ r.n_act = na ∧
        ((benchmark = "candid_sigmoid" ∨ benchmark = "piecewise_linear") →
          r.importance_base = ib ∧ r.reward_shape = rs ∧
            (rs = "exp" → r.exp_reward = er)) := by
  unfold get_run_configs
  rw [if_pos rfl]
  by_cases hb : benchmark = "candid_sigmoid" ∨ benchmark = "piecewise_linear"
  · rw [if_pos hb]
    by_cases hrs : rs = "exp"
    · rw [if_pos hrs]
      simp only [List.mem_filter, decide_eq_true_eq]
      constructor
      · rintro ⟨⟨⟨⟨h1, h2⟩, h3, h4, h5, h6⟩, h7, h8⟩, h9⟩
        exact ⟨h1, h2, h3, h4, h5, h6, fun _ => ⟨h7, h8, fun _ => h9⟩⟩
      · rintro ⟨h1, h2, h3, h4, h5, h6, h7⟩
        obtain ⟨h8, h9, h10⟩ := h7 hb
        exact ⟨⟨⟨⟨h1, h2⟩, h3, h4, h5, h6⟩, h8, h9⟩, h10 hrs⟩
    · rw [if_neg hrs]
      simp only [List.mem_filter, decide_eq_true_eq]
      constructor
      · rintro ⟨⟨⟨h1, h2⟩, h3, h4, h5, h6⟩, h7, h8⟩
        exact ⟨h1, h2, h3, h4, h5, h6,
          fun _ => ⟨h7, h8, fun hrs2 => absurd hrs2 hrs⟩⟩
      · rintro ⟨h1, h2, h3, h4, h5, h6, h7⟩
        obtain ⟨h8, h9, _⟩ := h7 hb
        exact ⟨⟨⟨h1, h2⟩, h3, h4, h5, h6⟩, h8, h9⟩
  · rw [if_neg hb]
    simp only [List.mem_filter, decide_eq_true_eq]
    constructor
    · rintro ⟨⟨h1, h2⟩, h3, h4, h5, h6⟩
      exact ⟨h1, h2, h3, h4, h5, h6, fun hb2 => absurd hb2 hb⟩
    · rintro ⟨h1, h2, h3, h4, h5, h6, _⟩
      exact ⟨⟨h1, h2⟩, h3, h4, h5, h6⟩

/-- Witness for C7 at a one-row table whose row matches every selector. -/
theorem get_run_configs_best_filter_witness :
    (⟨"best_0", 2, "sigmoid", false, 3, 1/2, "lin", 0⟩ : ConfigRow) ∈
      get_run_configs [⟨"best_0", 2, "sigmoid", false, 3, 1/2, "lin", 0⟩]
        2 "sigmoid" "best" false (1/2) "lin" 0 3 ↔
      (⟨"best_0", 2, "sigmoid", false, 3, 1/2, "lin", 0⟩ : ConfigRow) ∈
          [(⟨"best_0", 2, "sigmoid", false, 3, 1/2, "lin", 0⟩ : ConfigRow)] ∧
        hasSub "best_0" "best" = true ∧ (2 : ℤ) = 2 ∧
        "sigmoid" = "sigmoid" ∧ false = false ∧ (3 : ℤ) = 3 ∧
        (("sigmoid" = "candid_sigmoid" ∨ "sigmoid" = "piecewise_linear") →
          (1 : ℚ)/2 = 1/2 ∧ "lin" = "lin" ∧
            ("lin" = "exp" → (0 : ℚ) = 0)) :=
  get_run_configs_best_filter
    [⟨"best_0", 2, "sigmoid", false, 3, 1/2, "lin", 0⟩] 2 "sigmoid" false
    (1/2) "lin" 0 3 ⟨"best_0", 2, "sigmoid", false, 3, 1/2, "lin", 0⟩

/-- Claim C10: Every per-dimension candidate value divides by `n_acts − 1`:
with `n_acts = 1` both the combinatorial grid generator and the uniform
grid of `get_best_possible_avg_reward` hit the division by zero (embedded
as `none`), while under `n_acts ≥ 2` (and `max_dim ≥ 1` for the
combinatorial generator) both succeed. -/
theorem action_grid_division_guard :
    (∀ (max_dim : ℕ) (b : ℚ),
      get_actions_importance_sigmoid max_dim b 1 = none) ∧
    uniform_actions 1 = none ∧
    (∀ (max_dim : ℕ) (b : ℚ) (n_acts : ℕ), 1 ≤ max_dim → 2 ≤ n_acts →
      ∃ l, get_actions_importance_sigmoid max_dim b n_acts = some l) ∧
    (∀ n_acts : ℕ, 2 ≤ n_acts → ∃ l, uniform_actions n_acts = some l) := by
  have hdim0 : gais_dim0 1 = none := by
    norm_num [gais_dim0, mapOpt, qdiv?, List.range_succ]
  refine ⟨?_, ?_, ?_, ?_⟩
  · intro md b
    unfold get_actions_importance_sigmoid
    rw [hdim0]
    rfl
  · norm_num [uniform_actions, mapOpt, qdiv?, List.range_succ]
  · intro md b n _ hn
    refine ⟨np_sort (np_unique (cart_sums
      (((List.range n).map (fun i => 1 / ((n : ℚ) - 1) * i)) ::
        (List.range' 1 (md - 1)).map (fun i => (List.range n).map
          (fun j => b ^ i * ((j : ℚ) / ((n : ℚ) - 1) - 1/2)))))), ?_⟩
    unfold get_actions_importance_sigmoid
    rw [gais_dim0_eq_some hn,
      mapOpt_eq_some_map (gais_dim b n)
        (fun i => (List.range n).map
          (fun j => b ^ i * ((j : ℚ) / ((n : ℚ) - 1) - 1/2)))
        (List.range' 1 (md - 1)) (fun i _ => gais_dim_eq_some hn b i)]
    rfl
  · intro n hn
    exact ⟨_, mapOpt_eq_some_map _
      (fun i => 1 / ((n : ℚ) - 1) * i) (List.range n)
      (fun i _ => by rw [qdiv_eq_some (cast_sub_one_ne_zero hn)]; rfl)⟩

/-- Witness for C10: the successful branch at `max_dim = 1`, `b = 0`,
`n_acts = 2`. -/
theorem action_grid_division_guard_witness :
    ∃ l, get_actions_importance_sigmoid 1 0 2 = some l :=
  action_grid_division_guard.2.2.1 1 0 2 (by norm_num) (by norm_num)

end CandidDAC
